import Mathlib

/-!
Verification of the SolvencyProof repository: the liabilities Merkle
commitment pipeline (backend/src/utils/merkle.ts), the Groth16 solvency
circuit (circuits/solvency.circom with the circomlib comparators it
includes), the proving orchestrator (backend/src/solvency-prover.ts), the
on-chain registry (contracts SolvencyProofRegistry) and the submission
adapter (backend/src/submit-proof.ts).

Hash values (`0x...` hex digests in the TypeScript source) are modelled as
natural numbers below 2^256; byte strings are lists of naturals below 256.
JavaScript compares two equal-length lowercase hex strings exactly as the
numeric order of the encoded values, so `<` on digests is `<` on ℕ.
-/

/-! ### Keccak-256 (the `keccak256` function of the viem library, which the
source imports; implemented here from the Keccak specification, in a
kernel-computable style, so that digests are computable inside Lean) -/

/-- 64-bit lane mask. -/
def mask64 : Nat := 2 ^ 64 - 1

/-- Rotate a 64-bit lane left by `n` bits. -/
def rotl64 (x n : Nat) : Nat :=
  ((x <<< n) ||| (x >>> (64 - n))) &&& mask64

/-- The 25-lane Keccak sponge state, one field per lane (lane index is
`x + 5 * y`), kept as named fields so that kernel evaluation works on
plain natural-number arithmetic without list traversals. -/
structure KState where
  s0 : Nat
  s1 : Nat
  s2 : Nat
  s3 : Nat
  s4 : Nat
  s5 : Nat
  s6 : Nat
  s7 : Nat
  s8 : Nat
  s9 : Nat
  s10 : Nat
  s11 : Nat
  s12 : Nat
  s13 : Nat
  s14 : Nat
  s15 : Nat
  s16 : Nat
  s17 : Nat
  s18 : Nat
  s19 : Nat
  s20 : Nat
  s21 : Nat
  s22 : Nat
  s23 : Nat
  s24 : Nat

/-- The all-zero initial sponge state. -/
def keccakInit : KState :=
  KState.mk 0 0 0 0 0 0 0 0 0 0 0 0 0 0 0 0 0 0 0 0 0 0 0 0 0

/-- One Keccak-f round (theta, rho, pi, chi, iota) on the 25-lane state;
the rho rotation offsets and the pi lane permutation are inlined. -/
def keccakRound (st : KState) (rc : Nat) : KState :=
  let c0 := st.s0 ^^^ st.s5 ^^^ st.s10 ^^^ st.s15 ^^^ st.s20
  let c1 := st.s1 ^^^ st.s6 ^^^ st.s11 ^^^ st.s16 ^^^ st.s21
  let c2 := st.s2 ^^^ st.s7 ^^^ st.s12 ^^^ st.s17 ^^^ st.s22
  let c3 := st.s3 ^^^ st.s8 ^^^ st.s13 ^^^ st.s18 ^^^ st.s23
  let c4 := st.s4 ^^^ st.s9 ^^^ st.s14 ^^^ st.s19 ^^^ st.s24
  let d0 := c4 ^^^ rotl64 c1 1
  let d1 := c0 ^^^ rotl64 c2 1
  let d2 := c1 ^^^ rotl64 c3 1
  let d3 := c2 ^^^ rotl64 c4 1
  let d4 := c3 ^^^ rotl64 c0 1
  let a0 := st.s0 ^^^ d0
  let a1 := st.s1 ^^^ d1
  let a2 := st.s2 ^^^ d2
  let a3 := st.s3 ^^^ d3
  let a4 := st.s4 ^^^ d4
  let a5 := st.s5 ^^^ d0
  let a6 := st.s6 ^^^ d1
  let a7 := st.s7 ^^^ d2
  let a8 := st.s8 ^^^ d3
  let a9 := st.s9 ^^^ d4
  let a10 := st.s10 ^^^ d0
  let a11 := st.s11 ^^^ d1
  let a12 := st.s12 ^^^ d2
  let a13 := st.s13 ^^^ d3
  let a14 := st.s14 ^^^ d4
  let a15 := st.s15 ^^^ d0
  let a16 := st.s16 ^^^ d1
  let a17 := st.s17 ^^^ d2
  let a18 := st.s18 ^^^ d3
  let a19 := st.s19 ^^^ d4
  let a20 := st.s20 ^^^ d0
  let a21 := st.s21 ^^^ d1
  let a22 := st.s22 ^^^ d2
  let a23 := st.s23 ^^^ d3
  let a24 := st.s24 ^^^ d4
  let b0 := a0
  let b1 := rotl64 a6 44
  let b2 := rotl64 a12 43
  let b3 := rotl64 a18 21
  let b4 := rotl64 a24 14
  let b5 := rotl64 a3 28
  let b6 := rotl64 a9 20
  let b7 := rotl64 a10 3
  let b8 := rotl64 a16 45
  let b9 := rotl64 a22 61
  let b10 := rotl64 a1 1
  let b11 := rotl64 a7 6
  let b12 := rotl64 a13 25
  let b13 := rotl64 a19 8
  let b14 := rotl64 a20 18
  let b15 := rotl64 a4 27
  let b16 := rotl64 a5 36
  let b17 := rotl64 a11 10
  let b18 := rotl64 a17 15
  let b19 := rotl64 a23 56
  let b20 := rotl64 a2 62
  let b21 := rotl64 a8 55
  let b22 := rotl64 a14 39
  let b23 := rotl64 a15 41
  let b24 := rotl64 a21 2
  let e0 := b0 ^^^ ((b1 ^^^ mask64) &&& b2) ^^^ rc
  let e1 := b1 ^^^ ((b2 ^^^ mask64) &&& b3)
  let e2 := b2 ^^^ ((b3 ^^^ mask64) &&& b4)
  let e3 := b3 ^^^ ((b4 ^^^ mask64) &&& b0)
  let e4 := b4 ^^^ ((b0 ^^^ mask64) &&& b1)
  let e5 := b5 ^^^ ((b6 ^^^ mask64) &&& b7)
  let e6 := b6 ^^^ ((b7 ^^^ mask64) &&& b8)
  let e7 := b7 ^^^ ((b8 ^^^ mask64) &&& b9)
  let e8 := b8 ^^^ ((b9 ^^^ mask64) &&& b5)
  let e9 := b9 ^^^ ((b5 ^^^ mask64) &&& b6)
  let e10 := b10 ^^^ ((b11 ^^^ mask64) &&& b12)
  let e11 := b11 ^^^ ((b12 ^^^ mask64) &&& b13)
  let e12 := b12 ^^^ ((b13 ^^^ mask64) &&& b14)
  let e13 := b13 ^^^ ((b14 ^^^ mask64) &&& b10)
  let e14 := b14 ^^^ ((b10 ^^^ mask64) &&& b11)
  let e15 := b15 ^^^ ((b16 ^^^ mask64) &&& b17)
  let e16 := b16 ^^^ ((b17 ^^^ mask64) &&& b18)
  let e17 := b17 ^^^ ((b18 ^^^ mask64) &&& b19)
  let e18 := b18 ^^^ ((b19 ^^^ mask64) &&& b15)
  let e19 := b19 ^^^ ((b15 ^^^ mask64) &&& b16)
  let e20 := b20 ^^^ ((b21 ^^^ mask64) &&& b22)
  let e21 := b21 ^^^ ((b22 ^^^ mask64) &&& b23)
  let e22 := b22 ^^^ ((b23 ^^^ mask64) &&& b24)
  let e23 := b23 ^^^ ((b24 ^^^ mask64) &&& b20)
  let e24 := b24 ^^^ ((b20 ^^^ mask64) &&& b21)
  KState.mk e0 e1 e2 e3 e4 e5 e6 e7 e8 e9 e10 e11 e12 e13 e14 e15 e16 e17 e18 e19 e20 e21 e22 e23 e24

/-- The full Keccak-f[1600] permutation: the 24 rounds with their round
constants. -/
def keccakF (st : KState) : KState :=
  let t1 := keccakRound st 0x1
  let t2 := keccakRound t1 0x8082
  let t3 := keccakRound t2 0x800000000000808a
  let t4 := keccakRound t3 0x8000000080008000
  let t5 := keccakRound t4 0x808b
  let t6 := keccakRound t5 0x80000001
  let t7 := keccakRound t6 0x8000000080008081
  let t8 := keccakRound t7 0x8000000000008009
  let t9 := keccakRound t8 0x8a
  let t10 := keccakRound t9 0x88
  let t11 := keccakRound t10 0x80008009
  let t12 := keccakRound t11 0x8000000a
  let t13 := keccakRound t12 0x8000808b
  let t14 := keccakRound t13 0x800000000000008b
  let t15 := keccakRound t14 0x8000000000008089
  let t16 := keccakRound t15 0x8000000000008003
  let t17 := keccakRound t16 0x8000000000008002
  let t18 := keccakRound t17 0x8000000000000080
  let t19 := keccakRound t18 0x800a
  let t20 := keccakRound t19 0x800000008000000a
  let t21 := keccakRound t20 0x8000000080008081
  let t22 := keccakRound t21 0x8000000000008080
  let t23 := keccakRound t22 0x80000001
  keccakRound t23 0x8000000080008008

/-- Read a little-endian 64-bit lane from a byte list. -/
def bytesToLane (bs : List Nat) : Nat := bs.foldr (fun b acc => acc * 256 + b) 0

/-- Absorb one 136-byte block into the sponge state: XOR the 17 block
lanes into the first 17 state lanes, then apply Keccak-f. -/
def keccakAbsorbBlock (st : KState) (block : List Nat) : KState :=
  keccakF (KState.mk
    (st.s0 ^^^ bytesToLane (block.take 8))
    (st.s1 ^^^ bytesToLane ((block.drop 8).take 8))
    (st.s2 ^^^ bytesToLane ((block.drop 16).take 8))
    (st.s3 ^^^ bytesToLane ((block.drop 24).take 8))
    (st.s4 ^^^ bytesToLane ((block.drop 32).take 8))
    (st.s5 ^^^ bytesToLane ((block.drop 40).take 8))
    (st.s6 ^^^ bytesToLane ((block.drop 48).take 8))
    (st.s7 ^^^ bytesToLane ((block.drop 56).take 8))
    (st.s8 ^^^ bytesToLane ((block.drop 64).take 8))
    (st.s9 ^^^ bytesToLane ((block.drop 72).take 8))
    (st.s10 ^^^ bytesToLane ((block.drop 80).take 8))
    (st.s11 ^^^ bytesToLane ((block.drop 88).take 8))
    (st.s12 ^^^ bytesToLane ((block.drop 96).take 8))
    (st.s13 ^^^ bytesToLane ((block.drop 104).take 8))
    (st.s14 ^^^ bytesToLane ((block.drop 112).take 8))
    (st.s15 ^^^ bytesToLane ((block.drop 120).take 8))
    (st.s16 ^^^ bytesToLane ((block.drop 128).take 8))
    st.s17 st.s18 st.s19 st.s20 st.s21 st.s22 st.s23 st.s24)

/-- Keccak pad10star1 padding with domain byte 0x01 (the original Keccak
padding used by Ethereum, not the SHA-3 variant). -/
def keccakPad (msg : List Nat) : List Nat :=
  let padLen := 136 - msg.length % 136
  if padLen = 1 then msg ++ [0x81]
  else msg ++ [0x01] ++ List.replicate (padLen - 2) 0 ++ [0x80]

/-- Absorb `n` consecutive 136-byte blocks of `msg` into the state. -/
def keccakAbsorb : Nat → KState → List Nat → KState
  | 0, st, _ => st
  | n + 1, st, msg => keccakAbsorb n (keccakAbsorbBlock st (msg.take 136)) (msg.drop 136)

/-- Serialize a 64-bit lane into 8 little-endian bytes. -/
def laneToBytes (x : Nat) : List Nat := (List.range 8).map fun i => (x >>> (8 * i)) &&& 255

/-- Keccak-256 of a byte list, returned as the digest value (the 32 output
bytes read in big-endian order, which is how the `0x...` hex digest of the
TypeScript code denotes it). -/
def keccak256 (msg : List Nat) : Nat :=
  let padded := keccakPad msg
  let st := keccakAbsorb (padded.length / 136) keccakInit padded
  (laneToBytes st.s0 ++ laneToBytes st.s1 ++ laneToBytes st.s2 ++ laneToBytes st.s3).foldl
    (fun acc b => acc * 256 + b) 0

/-! ### Packed ABI encodings (viem `encodePacked`) -/

/-- Fixed-width big-endian byte encoding: `beBytes n b` is the `n`-byte
big-endian encoding of `b mod 256^n`.  With `n = 32` this is the packed
encoding of a `uint256` or `bytes32` value used by viem `encodePacked`. -/
def beBytes : Nat → Nat → List Nat
  | 0, _ => []
  | n + 1, b => beBytes n (b / 256) ++ [b % 256]

/-- Big-endian byte decoder, inverse of `beBytes` on in-range values. -/
def ofBeBytes (bs : List Nat) : Nat := bs.foldl (fun acc b => acc * 256 + b) 0

/-- viem `encodePacked(["string", "uint256"], [userId, balance])`: the UTF-8
bytes of the string followed by the 32-byte big-endian balance.  The string
is modelled by its UTF-8 byte list (UTF-8 encoding of distinct strings is
distinct). -/
def encodePackedStringUint (userId : List Nat) (balance : Nat) : List Nat :=
  userId ++ beBytes 32 balance

/-- viem `encodePacked(["bytes32", "bytes32"], [a, b])`. -/
def encodePackedBytes32Pair (a b : Nat) : List Nat :=
  beBytes 32 a ++ beBytes 32 b

/-! ### Merkle tree (backend/src/utils/merkle.ts, in src/unnamed/part_007) -/

/-- `hashLeaf(userId, balance)`: keccak256 of the packed (string, uint256)
encoding (merkle.ts lines 26-28). -/
def hashLeaf (userId : List Nat) (balance : Nat) : Nat :=
  keccak256 (encodePackedStringUint userId balance)

/-- `hashPair(a, b)`: sort the two digests, then keccak256 of the packed
(bytes32, bytes32) encoding (merkle.ts lines 30-33).  JavaScript string
comparison of the two equal-length lowercase hex digests is numeric
comparison of the digest values. -/
def hashPair (a b : Nat) : Nat :=
  if a < b then keccak256 (encodePackedBytes32Pair a b)
  else keccak256 (encodePackedBytes32Pair b a)

/-- One element of `MerkleTree.leaves`. -/
structure MerkleLeaf where
  userId : List Nat
  balance : Nat
  hash : Nat
  index : Nat

/-- The tree returned by `buildMerkleTree` (merkle.ts lines 18-23). -/
structure MerkleTree where
  root : Nat
  leaves : List MerkleLeaf
  layers : List (List Nat)
  total : Nat

/-- One pairing pass of the `while` loop body in `buildMerkleTree`: hash
adjacent pairs, carry an unpaired final element up unchanged. -/
def nextLayer : List Nat → List Nat
  | [] => []
  | [a] => [a]
  | a :: b :: rest => hashPair a b :: nextLayer rest

/-- The `while (currentLayer.length > 1)` loop of `buildMerkleTree`,
collecting every layer from the leaves up to the root layer.  The loop
halves the layer length each iteration, so `fuel` bounded by the initial
length is always sufficient; `buildLayers` below instantiates it. -/
def buildLayersAux : Nat → List Nat → List (List Nat)
  | 0, cur => [cur]
  | fuel + 1, cur =>
    if cur.length ≤ 1 then [cur]
    else cur :: buildLayersAux fuel (nextLayer cur)

/-- All layers of the tree over the given leaf layer. -/
def buildLayers (cur : List Nat) : List (List Nat) :=
  buildLayersAux cur.length cur

/-- `buildMerkleTree(entries)` (merkle.ts lines 35-73): `none` models the
`throw` on zero entries; otherwise hash each entry in input order, sum the
balances, build the layers, and take the single element of the final layer
as the root. -/
def buildMerkleTree (entries : List (List Nat × Nat)) : Option MerkleTree :=
  if entries = [] then none
  else
    let leaves := entries.enum.map fun p =>
      MerkleLeaf.mk p.2.1 p.2.2 (hashLeaf p.2.1 p.2.2) p.1
    let total := entries.foldl (fun sum e => sum + e.2) 0
    let layers := buildLayers (leaves.map MerkleLeaf.hash)
    some (MerkleTree.mk ((layers.getLastD []).headD 0) leaves layers total)

/-- The loop body of `generateProof` (merkle.ts lines 75-92), recursing over
the layers below the root layer: take the sibling (skipping it when the
node is the unpaired last element), then halve the index. -/
def genProofAux : List (List Nat) → Nat → List Nat
  | [], _ => []
  | [_], _ => []
  | layer :: rest, idx =>
    let sibIdx := if idx % 2 = 1 then idx - 1 else idx + 1
    (if sibIdx < layer.length then [layer.getD sibIdx 0] else []) ++
      genProofAux rest (idx / 2)

/-- `generateProof(tree, leafIndex)` (merkle.ts lines 75-92). -/
def generateProof (tree : MerkleTree) (leafIndex : Nat) : List Nat :=
  genProofAux tree.layers leafIndex

/-- `verifyProof(leafHash, proof, root, leafIndex)` (merkle.ts lines
94-109): fold the siblings over `hashPair`, halving the running index each
step, and compare with the claimed root. -/
def verifyProof (leafHash : Nat) (proof : List Nat) (root : Nat) (leafIndex : Nat) : Bool :=
  let r := proof.foldl (fun acc sibling => (hashPair acc.1 sibling, acc.2 / 2))
    (leafHash, leafIndex)
  r.1 == root

/-! ### The Solvency circuit (circuits/solvency.circom and the circomlib
comparators it includes), embedded as a constraint-satisfaction predicate
over the BN254 scalar field -/

/-- The BN254 (alt-bn128) scalar field prime, the field circom 2.x compiles
to by default and the modulus of every signal of the Solvency circuit. -/
def bn254p : Nat :=
  21888242871839275222246405745257275088548364400416034343698204186575808495617

instance : NeZero bn254p := ⟨by decide⟩

/-- A signal value of the Solvency circuit. -/
abbrev Fp := ZMod bn254p

/-- circomlib `Num2Bits(n)`: every output signal is boolean and the binary
recombination equals the input, both as field constraints. -/
def num2bits (n : Nat) (input : Fp) (out : Nat → Fp) : Prop :=
  (∀ i < n, out i * (out i - 1) = 0) ∧
  ((Finset.range n).sum fun i => out i * 2 ^ i) = input

/-- circomlib `LessThan(n)`: decompose `in0 + 2^n - in1` into `n + 1` bits
and output the complement of the top bit. -/
def lessThanC (n : Nat) (in0 in1 out : Fp) (bits : Nat → Fp) : Prop :=
  num2bits (n + 1) (in0 + 2 ^ n - in1) bits ∧ out = 1 - bits n

/-- circomlib `GreaterEqThan(n)`: `LessThan(n)` applied to `(in1, in0 + 1)`. -/
def greaterEqThanC (n : Nat) (in0 in1 out : Fp) (bits : Nat → Fp) : Prop :=
  lessThanC n in1 (in0 + 1) out bits

/-- The constraint system of the `Solvency` template
(circuits/solvency.circom lines 5-32): `gte = GreaterEqThan(252)` applied
to `(reservesTotal, liabilitiesTotal)`, `isSolvent <== gte.out`,
`isSolvent === 1`, and the two dummy constraints
`dummy1 <== liabilitiesRoot * epochId`, `dummy2 <== dummy1 * 0`. -/
def solvencyConstraints (liabilitiesRoot reservesTotal epochId liabilitiesTotal : Fp)
    (isSolvent dummy1 dummy2 gteOut : Fp) (bits : Nat → Fp) : Prop :=
  greaterEqThanC 252 reservesTotal liabilitiesTotal gteOut bits ∧
  isSolvent = gteOut ∧
  isSolvent = 1 ∧
  dummy1 = liabilitiesRoot * epochId ∧
  dummy2 = dummy1 * 0

/-- Satisfiability of the Solvency constraint system for a given assignment
of the three public inputs and the private input: some assignment of all
internal signals meets every constraint.  A Groth16 proof for this
input assignment exists exactly when the system is satisfiable. -/
def solvencySatisfiable (liabilitiesRoot reservesTotal epochId liabilitiesTotal : Fp) : Prop :=
  ∃ isSolvent dummy1 dummy2 gteOut bits,
    solvencyConstraints liabilitiesRoot reservesTotal epochId liabilitiesTotal
      isSolvent dummy1 dummy2 gteOut bits

/-- Binary modular exponentiation with explicit structural fuel, used to
check the Lucas primality certificate of `bn254p` by kernel computation.
`powMod f b e m = b ^ e % m` whenever `e < 2 ^ f`. -/
def powMod : Nat → Nat → Nat → Nat → Nat
  | 0, _, _, m => 1 % m
  | f + 1, b, e, m =>
    if e = 0 then 1 % m
    else
      let h := powMod f b (e / 2) m
      if e % 2 = 0 then h * h % m else h * h % m * (b % m) % m

/-! ### The proving orchestrator (backend/src/solvency-prover.ts) -/

/-- The pipeline stages of `generateProof` in solvency-prover.ts that shell
out to the circuit tooling or produce artifacts, in program order. -/
inductive ProverStep
  | witnessGen
  | prove
  | localVerify
  | exportCalldata

/-- The distinct failure exits of `generateProof` in solvency-prover.ts,
one constructor per `throw` site. -/
inductive ProverError
  | liabilitiesNotFound
  | reservesNotFound
  | insolvency (reserves liabilities : Nat)
  | stepFailed (s : ProverStep)
  | localVerificationFailed

/-- The environment `generateProof` reads: the artifact files on disk and
the outcomes of the external snarkjs and witness-generator processes. -/
structure ProverEnv where
  liabilitiesData : Option (Nat × Nat)
  reservesData : Option Nat
  epochId : Nat
  witnessOk : Bool
  proveOk : Bool
  publicSignalsOut : List Nat
  verifyOk : Bool

/-- The control flow of `generateProof` (solvency-prover.ts lines 39-150):
load the liabilities artifacts, load the reserves snapshot, precheck
`reservesBN < liabilitiesBN` and throw before any circuit invocation when
it holds, then run witness generation, proving, local verification and
calldata export in order.  Returns the result together with the list of
pipeline steps that were started. -/
def generateProofRun (env : ProverEnv) :
    Except ProverError (List Nat) × List ProverStep :=
  match env.liabilitiesData with
  | none => (Except.error ProverError.liabilitiesNotFound, [])
  | some (_root, liabilitiesTotal) =>
    match env.reservesData with
    | none => (Except.error ProverError.reservesNotFound, [])
    | some reservesTotal =>
      if reservesTotal < liabilitiesTotal then
        (Except.error (ProverError.insolvency reservesTotal liabilitiesTotal), [])
      else if !env.witnessOk then
        (Except.error (ProverError.stepFailed ProverStep.witnessGen), [ProverStep.witnessGen])
      else if !env.proveOk then
        (Except.error (ProverError.stepFailed ProverStep.prove),
          [ProverStep.witnessGen, ProverStep.prove])
      else if !env.verifyOk then
        (Except.error ProverError.localVerificationFailed,
          [ProverStep.witnessGen, ProverStep.prove, ProverStep.localVerify])
      else
        (Except.ok env.publicSignalsOut,
          [ProverStep.witnessGen, ProverStep.prove, ProverStep.localVerify,
           ProverStep.exportCalldata])

/-! ### The on-chain registry (SolvencyProofRegistry, src/unnamed/part_001)
and the submission adapter (backend/src/submit-proof.ts) -/

/-- The `SolvencyProof` struct stored by the registry. -/
structure SolvencyProofRec where
  epochId : Nat
  liabilitiesRoot : Nat
  reservesTotal : Nat
  timestamp : Nat
  submitter : Nat
  verified : Bool

/-- The zero-initialized mapping entry of Solidity. -/
def emptyProofRec : SolvencyProofRec := SolvencyProofRec.mk 0 0 0 0 0 false

/-- The storage of `SolvencyProofRegistry`: the `proofs` mapping and the
`epochIds` array (owner and verifier address omitted; the embedded
verifier call is abstracted as a function argument below). -/
structure RegistryState where
  proofs : Nat → SolvencyProofRec
  epochIds : List Nat

/-- The `uint256[3]` public-signal array `submitProof` builds and passes to
its embedded verifier (part_001 lines 64-69):
`[uint256(liabilitiesRoot), reservesTotal, uint256(epochId)]`. -/
def registryPubSignals (epochId liabilitiesRoot reservesTotal : Nat) : List Nat :=
  [liabilitiesRoot, reservesTotal, epochId]

/-- `SolvencyProofRegistry.submitProof` (part_001 lines 55-93): require the
epoch unused, call the embedded verifier on the 3-element public-signal
array, require it to accept, then record the proof and append the epoch.
`Except.error` models `revert` with the given require message. -/
def submitProof (st : RegistryState)
    (verifierAccepts : List Nat → List (List Nat) → List Nat → List Nat → Bool)
    (sender blockTimestamp : Nat)
    (epochId liabilitiesRoot reservesTotal : Nat)
    (pA : List Nat) (pB : List (List Nat)) (pC : List Nat) :
    Except String RegistryState :=
  if (st.proofs epochId).timestamp ≠ 0 then Except.error "Epoch already submitted"
  else
    let pubSignals := registryPubSignals epochId liabilitiesRoot reservesTotal
    if !verifierAccepts pA pB pC pubSignals then Except.error "Invalid proof"
    else Except.ok (RegistryState.mk
      (fun e => if e = epochId then
        SolvencyProofRec.mk epochId liabilitiesRoot reservesTotal blockTimestamp sender true
        else st.proofs e)
      (st.epochIds ++ [epochId]))

/-- EVM call semantics around `submitProof`: a revert rolls back every
storage write, so the post-call storage is the pre-call storage whenever
the function exits with an error. -/
def submitProofCall (st : RegistryState)
    (verifierAccepts : List Nat → List (List Nat) → List Nat → List Nat → Bool)
    (sender blockTimestamp : Nat)
    (epochId liabilitiesRoot reservesTotal : Nat)
    (pA : List Nat) (pB : List (List Nat)) (pC : List Nat) :
    RegistryState × Option String :=
  match submitProof st verifierAccepts sender blockTimestamp epochId liabilitiesRoot
      reservesTotal pA pB pC with
  | Except.ok st2 => (st2, none)
  | Except.error e => (st, some e)

/-- Modelled from the spec: the proof artifact serialized by the
orchestrator carries `publicSignals` as the ordered 4-tuple
`[isSolvent, liabilitiesRoot, reservesTotal, epochId]` (spec section 6,
output solvency proof artifact).  The serialization itself is produced by
the external snarkjs tool, whose code is not under src/. -/
def orchestratorPublicSignals (isSolvent liabilitiesRoot reservesTotal epochId : Nat) :
    List Nat :=
  [isSolvent, liabilitiesRoot, reservesTotal, epochId]

/-- The parameter types of the `submitProof` entry of `REGISTRY_ABI` in
backend/src/submit-proof.ts lines 18-22: the adapter encodes its
transaction against this 7-parameter signature. -/
def adapterSubmitProofParams : List String :=
  ["bytes32", "bytes32", "uint256", "uint256[2]", "uint256[2][2]", "uint256[2]",
   "uint256[4]"]

/-- The parameter types of `SolvencyProofRegistry.submitProof` in part_001
lines 55-62: the deployed contract exposes this 6-parameter signature. -/
def registrySubmitProofParams : List String :=
  ["bytes32", "bytes32", "uint256", "uint256[2]", "uint256[2][2]", "uint256[2]"]

/-! ### Fallible leaf hashing (claim C9): viem range checking and
JavaScript BigInt string parsing -/

/-- The error viem throws from `encodePacked` when a `uint256` value is out
of range. -/
inductive ViemError
  | integerOutOfRange

/-- viem packed encoding of a `uint256` from an arbitrary `bigint`
(modelled from the documented behavior of the external viem library):
values outside `[0, 2^256)` throw `IntegerOutOfRangeError`. -/
def encodePackedUint256 (b : Int) : Except ViemError (List Nat) :=
  if 0 ≤ b ∧ b < 2 ^ 256 then Except.ok (beBytes 32 b.toNat)
  else Except.error ViemError.integerOutOfRange

/-- `hashLeaf` together with the range check viem performs on its
`uint256` argument: the result for an arbitrary `bigint` balance. -/
def hashLeafChecked (userId : List Nat) (balance : Int) : Except ViemError Nat :=
  (encodePackedUint256 balance).map fun bs => keccak256 (userId ++ bs)

/-- Decimal digit check for `jsBigIntParse`. -/
def isDecDigit (c : Char) : Bool := decide ('0' ≤ c ∧ c ≤ '9')

/-- Numeric value of a decimal digit list. -/
def decDigitsToNat (l : List Char) : Nat :=
  l.foldl (fun acc c => acc * 10 + (c.toNat - 48)) 0

/-- JavaScript `BigInt(string)` on trimmed decimal input (modelled from the
ECMAScript StringToBigInt semantics): an optional sign followed by decimal
digits; anything else, such as a string with a decimal point, throws a
SyntaxError, modelled as `none`. -/
def jsBigIntParse (s : String) : Option Int :=
  match s.data with
  | [] => some 0
  | '-' :: rest =>
    if rest ≠ [] ∧ rest.all isDecDigit then some (-(decDigitsToNat rest : Int)) else none
  | l =>
    if l.all isDecDigit then some (decDigitsToNat l : Int) else none

/-! ## Theorems -/

/-! ### Generic helper lemmas -/

theorem hashPair_comm (a b : Nat) : hashPair a b = hashPair b a := by
  unfold hashPair
  rcases lt_trichotomy a b with h | h | h
  · rw [if_pos h, if_neg (not_lt.mpr h.le)]
  · subst h; rfl
  · rw [if_neg (not_lt.mpr h.le), if_pos h]

theorem beBytes_length (n b : Nat) : (beBytes n b).length = n := by
  induction n generalizing b with
  | zero => rfl
  | succ n ih => simp [beBytes, ih]

theorem ofBeBytes_append_one (xs : List Nat) (d : Nat) :
    ofBeBytes (xs ++ [d]) = ofBeBytes xs * 256 + d := by
  simp [ofBeBytes, List.foldl_append]

theorem ofBeBytes_beBytes (n b : Nat) (h : b < 256 ^ n) :
    ofBeBytes (beBytes n b) = b := by
  induction n generalizing b with
  | zero =>
    interval_cases b
    rfl
  | succ n ih =>
    have hdiv : b / 256 < 256 ^ n := by
      rw [Nat.div_lt_iff_lt_mul (by norm_num)]
      calc b < 256 ^ (n + 1) := h
        _ = 256 ^ n * 256 := by ring
    rw [beBytes, ofBeBytes_append_one, ih (b / 256) hdiv]
    omega

/-- The fold of `verifyProof` never reads the index component of its
accumulator: its hash component equals the plain `hashPair` fold. -/
theorem verifyFold_fst (ps : List Nat) (h i : Nat) :
    (ps.foldl (fun acc sibling => (hashPair acc.1 sibling, acc.2 / 2)) (h, i)).1 =
      ps.foldl hashPair h := by
  induction ps generalizing h i with
  | nil => rfl
  | cons p ps ih => simpa using ih (hashPair h p) (i / 2)

/-! ### Claim C10 -/

/-- C10: `verifyProof` is independent of its `leafIndex` argument: the
running index is halved at each step but never used, because `hashPair`
sorts its two operands, so any two indices give the same verification
result. -/
theorem verifyProof_index_independent (leafHash : Nat) (proof : List Nat)
    (root i j : Nat) :
    verifyProof leafHash proof root i = verifyProof leafHash proof root j := by
  simp only [verifyProof]
  rw [verifyFold_fst, verifyFold_fst]

/-! ### Claim C6 -/

/-- C6: the packed byte encoding hashed by `hashLeaf` is injective: two
pairs of a UTF-8 identifier byte string and an in-range uint256 balance
that differ produce different byte strings, because the balance occupies a
fixed 32-byte big-endian suffix. -/
theorem leaf_encoding_injective (u1 u2 : List Nat) (b1 b2 : Nat)
    (hb1 : b1 < 2 ^ 256) (hb2 : b2 < 2 ^ 256)
    (hne : (u1, b1) ≠ (u2, b2)) :
    encodePackedStringUint u1 b1 ≠ encodePackedStringUint u2 b2 := by
  intro h
  unfold encodePackedStringUint at h
  obtain ⟨hu, hb⟩ := List.append_inj' h (by rw [beBytes_length, beBytes_length])
  have h256 : (256 : Nat) ^ 32 = 2 ^ 256 := by norm_num
  have hbv : b1 = b2 := by
    have e1 := ofBeBytes_beBytes 32 b1 (h256 ▸ hb1)
    have e2 := ofBeBytes_beBytes 32 b2 (h256 ▸ hb2)
    rw [← e1, ← e2, hb]
  exact hne (by rw [hu, hbv])

/-- Witness for C6 at the concrete pairs `([0], 0)` and `([1], 0)`. -/
theorem leaf_encoding_injective_witness :
    encodePackedStringUint [0] 0 ≠ encodePackedStringUint [1] 0 :=
  leaf_encoding_injective [0] [1] 0 0 (by norm_num) (by norm_num) (by decide)

set_option maxRecDepth 1000000

/-! ### Claim C9 -/

/-- C9 counterexample: a negative balance reaching `hashLeaf` fails with
the range error of the viem `uint256` encoder, not with a repository-
defined `InvalidBalance` error (no such error exists anywhere in the
source), and the string `12.5` already fails JavaScript `BigInt` parsing
before `hashLeaf` can be called. -/
theorem hashLeaf_negative_error_identity :
    jsBigIntParse "-5" = some (-5) ∧
    hashLeafChecked [117, 115, 101, 114] (-5) =
      Except.error ViemError.integerOutOfRange ∧
    jsBigIntParse "12.5" = none := by
  refine ⟨by decide, rfl, by decide⟩

/-- C9 as amended: leaf hashing of a negative balance always fails, with
the `IntegerOutOfRangeError` of the viem encoder rather than a
repository-defined `InvalidBalance`; a non-integer balance string such as
`12.5` fails earlier, at `BigInt` conversion; in neither case is the
record silently coerced to zero or truncated. -/
theorem hashLeaf_rejects_negative (u : List Nat) (b : Int) (hb : b < 0) :
    hashLeafChecked u b = Except.error ViemError.integerOutOfRange ∧
    jsBigIntParse "12.5" = none := by
  refine ⟨?_, by decide⟩
  unfold hashLeafChecked encodePackedUint256
  rw [if_neg (fun h => absurd h.1 (by omega))]
  rfl

/-- Witness for the amended C9 at balance `-5`. -/
theorem hashLeaf_rejects_negative_witness :
    hashLeafChecked [117, 115, 101, 114] (-5) =
      Except.error ViemError.integerOutOfRange ∧
    jsBigIntParse "12.5" = none :=
  hashLeaf_rejects_negative [117, 115, 101, 114] (-5) (by decide)

/-! ### Claim C7 -/

/-- C7: when the loaded reserves total is strictly below the liabilities
total, the prover exits with the insolvency error before any pipeline step
runs: no witness generation, no proving, no artifact; and that error is a
different constructor from the proof-generation and local-verification
failures. -/
theorem prover_insolvency_fail_fast (env : ProverEnv) (root liab reserves : Nat)
    (hl : env.liabilitiesData = some (root, liab))
    (hr : env.reservesData = some reserves)
    (hlt : reserves < liab) :
    generateProofRun env = (Except.error (ProverError.insolvency reserves liab), []) ∧
    (∀ s, ProverError.insolvency reserves liab ≠ ProverError.stepFailed s) ∧
    ProverError.insolvency reserves liab ≠ ProverError.localVerificationFailed := by
  refine ⟨?_, fun s => by simp, by simp⟩
  simp [generateProofRun, hl, hr, hlt]

/-- Witness for C7 at the seed scenario: reserves 4000, liabilities 4500. -/
theorem prover_insolvency_fail_fast_witness :
    generateProofRun (ProverEnv.mk (some (7, 4500)) (some 4000) 42 true true [] true) =
      (Except.error (ProverError.insolvency 4000 4500), []) ∧
    (∀ s, ProverError.insolvency 4000 4500 ≠ ProverError.stepFailed s) ∧
    ProverError.insolvency 4000 4500 ≠ ProverError.localVerificationFailed :=
  prover_insolvency_fail_fast _ 7 4500 4000 rfl rfl (by decide)

/-! ### Claim C8 -/

/-- C8: if the registry already stores a proof for an epoch (nonzero
recorded timestamp), a second `submitProof` for that epoch reverts with
the duplicate-epoch message, the post-call storage is exactly the
pre-call storage, and no successful state transition exists, so each
epoch is recorded at most once. -/
theorem submitProof_duplicate_epoch_reverts (st : RegistryState)
    (verifierAccepts : List Nat → List (List Nat) → List Nat → List Nat → Bool)
    (sender blockTimestamp epochId liabilitiesRoot reservesTotal : Nat)
    (pA : List Nat) (pB : List (List Nat)) (pC : List Nat)
    (hdup : (st.proofs epochId).timestamp ≠ 0) :
    submitProofCall st verifierAccepts sender blockTimestamp epochId liabilitiesRoot
        reservesTotal pA pB pC = (st, some "Epoch already submitted") ∧
    ∀ st2, submitProof st verifierAccepts sender blockTimestamp epochId liabilitiesRoot
        reservesTotal pA pB pC ≠ Except.ok st2 := by
  constructor
  · simp [submitProofCall, submitProof, hdup]
  · intro st2
    simp [submitProof, hdup]

/-- Witness for C8: a registry whose stored record for epoch 5 has
timestamp 1, with an always-accepting verifier. -/
theorem submitProof_duplicate_epoch_reverts_witness :
    submitProofCall
        (RegistryState.mk (fun _ => SolvencyProofRec.mk 5 7 5000 1 9 true) [5])
        (fun _ _ _ _ => true) 9 2 5 7 5000 [] [] [] =
      (RegistryState.mk (fun _ => SolvencyProofRec.mk 5 7 5000 1 9 true) [5],
        some "Epoch already submitted") ∧
    ∀ st2, submitProof
        (RegistryState.mk (fun _ => SolvencyProofRec.mk 5 7 5000 1 9 true) [5])
        (fun _ _ _ _ => true) 9 2 5 7 5000 [] [] [] ≠ Except.ok st2 :=
  submitProof_duplicate_epoch_reverts _ _ 9 2 5 7 5000 [] [] [] (by decide)

/-! ### Claim C5 -/

/-- C5: evaluation of the submission pipeline shapes at the seed scenario
(isSolvent 1, root 7, reserves 5000, epoch 42).  The registry passes the
3-element array `[liabilitiesRoot, reservesTotal, epochId]` to its
embedded verifier, dropping `isSolvent`, so it differs from the 4-element
tuple the orchestrator serializes; and the adapter ABI declares 7
parameters (with a `uint256[4]` public-signal array) while the deployed
registry contract declares 6. -/
theorem registry_pubsignals_mismatch :
    registryPubSignals 42 7 5000 = [7, 5000, 42] ∧
    registryPubSignals 42 7 5000 ≠ orchestratorPublicSignals 1 7 5000 42 ∧
    adapterSubmitProofParams.length = 7 ∧
    registrySubmitProofParams.length = 6 := by
  refine ⟨rfl, by decide, rfl, rfl⟩

/-! ### Layer structure lemmas for the inclusion round-trip -/

theorem nextLayer_length : ∀ l : List Nat, (nextLayer l).length = (l.length + 1) / 2
  | [] => rfl
  | [_] => by simp [nextLayer]
  | _ :: _ :: rest => by
    simp only [nextLayer, List.length_cons, nextLayer_length rest]
    omega

theorem buildLayersAux_congr : ∀ (f g : Nat) (cur : List Nat),
    cur.length ≤ f + 1 → cur.length ≤ g + 1 →
    buildLayersAux f cur = buildLayersAux g cur
  | 0, 0, _, _, _ => rfl
  | 0, g + 1, cur, h1, _ => by
    simp only [buildLayersAux, if_pos h1]
  | f + 1, 0, cur, _, h2 => by
    simp only [buildLayersAux, if_pos h2]
  | f + 1, g + 1, cur, h1, h2 => by
    by_cases hc : cur.length ≤ 1
    · simp only [buildLayersAux, if_pos hc]
    · simp only [buildLayersAux, if_neg hc]
      have hnl := nextLayer_length cur
      refine congrArg _ (buildLayersAux_congr f g (nextLayer cur) ?_ ?_) <;> omega

theorem buildLayers_single (cur : List Nat) (h : cur.length ≤ 1) :
    buildLayers cur = [cur] := by
  match cur, h with
  | [], _ => rfl
  | [a], _ => rfl

theorem buildLayers_step (cur : List Nat) (h : 2 ≤ cur.length) :
    buildLayers cur = cur :: buildLayers (nextLayer cur) := by
  unfold buildLayers
  obtain ⟨k, hk⟩ : ∃ k, cur.length = k + 1 := ⟨cur.length - 1, by omega⟩
  rw [hk]
  simp only [buildLayersAux, if_neg (by omega : ¬cur.length ≤ 1)]
  refine congrArg _ (buildLayersAux_congr k (nextLayer cur).length (nextLayer cur) ?_ ?_)
  · have := nextLayer_length cur
    omega
  · omega

theorem buildLayers_shape (cur : List Nat) : ∃ t, buildLayers cur = cur :: t := by
  by_cases h : cur.length ≤ 1
  · exact ⟨[], buildLayers_single cur h⟩
  · exact ⟨buildLayers (nextLayer cur), buildLayers_step cur (by omega)⟩

theorem nextLayer_getD_pair : ∀ (l : List Nat) (k : Nat), 2 * k + 1 < l.length →
    (nextLayer l).getD k 0 = hashPair (l.getD (2 * k) 0) (l.getD (2 * k + 1) 0)
  | [], k, h => by simp at h
  | [_], k, h => by
    simp only [List.length_cons, List.length_nil] at h
    omega
  | a :: b :: rest, 0, _ => rfl
  | a :: b :: rest, k + 1, h => by
    have hrest : 2 * k + 1 < rest.length := by
      simp only [List.length_cons] at h
      omega
    have heq := nextLayer_getD_pair rest k hrest
    rw [show 2 * (k + 1) = (2 * k + 1) + 1 from by omega]
    simp only [nextLayer, List.getD_cons_succ]
    exact heq

theorem nextLayer_getD_promoted : ∀ (l : List Nat) (k : Nat), l.length = 2 * k + 1 →
    (nextLayer l).getD k 0 = l.getD (2 * k) 0
  | [], k, h => by simp at h
  | [a], k, h => by
    have hk : k = 0 := by
      simp only [List.length_cons, List.length_nil] at h
      omega
    subst hk
    rfl
  | a :: b :: rest, k, h => by
    obtain ⟨k2, rfl⟩ : ∃ k2, k = k2 + 1 := by
      refine ⟨k - 1, ?_⟩
      simp only [List.length_cons] at h
      omega
    have hrest : rest.length = 2 * k2 + 1 := by
      simp only [List.length_cons] at h
      omega
    have heq := nextLayer_getD_promoted rest k2 hrest
    rw [show 2 * (k2 + 1) = (2 * k2 + 1) + 1 from by omega]
    simp only [nextLayer, List.getD_cons_succ]
    exact heq

/-- The root recomputed by folding the generated authentication path from
any leaf position of a layer equals the head of the final layer. -/
theorem foldl_genProofAux_eq_root : ∀ (n : Nat) (l : List Nat), l.length ≤ n →
    l ≠ [] → ∀ idx, idx < l.length →
    List.foldl hashPair (l.getD idx 0) (genProofAux (buildLayers l) idx) =
      ((buildLayers l).getLastD []).headD 0
  | 0, l, hn, hne, idx, hidx => by
    cases l with
    | nil => exact absurd rfl hne
    | cons a t => simp at hn
  | n + 1, l, hn, hne, idx, hidx => by
    by_cases hlen : l.length ≤ 1
    · match l, hne, hidx with
      | [a], _, hidx =>
        have hidx0 : idx = 0 := by
          simp only [List.length_cons, List.length_nil] at hidx
          omega
        subst hidx0
        rw [buildLayers_single [a] (by simp)]
        rfl
    · push_neg at hlen
      have h2 : 2 ≤ l.length := hlen
      obtain ⟨t, ht⟩ := buildLayers_shape (nextLayer l)
      have hstep : buildLayers l = l :: nextLayer l :: t := by
        rw [buildLayers_step l h2, ht]
      rw [hstep]
      have hnl_len : (nextLayer l).length = (l.length + 1) / 2 := nextLayer_length l
      have hsib : List.foldl hashPair (l.getD idx 0)
          (if (if idx % 2 = 1 then idx - 1 else idx + 1) < l.length
            then [l.getD (if idx % 2 = 1 then idx - 1 else idx + 1) 0] else []) =
          (nextLayer l).getD (idx / 2) 0 := by
        by_cases hodd : idx % 2 = 1
        · have h1 : 2 * (idx / 2) = idx - 1 := by omega
          have h2b : 2 * (idx / 2) + 1 = idx := by omega
          rw [if_pos hodd, if_pos (by omega : idx - 1 < l.length),
            nextLayer_getD_pair l (idx / 2) (by omega), h2b, h1]
          simp only [List.foldl_cons, List.foldl_nil]
          exact hashPair_comm _ _
        · have heven : idx % 2 = 0 := by omega
          rw [if_neg hodd]
          by_cases hin : idx + 1 < l.length
          · have h1 : 2 * (idx / 2) = idx := by omega
            have h2b : 2 * (idx / 2) + 1 = idx + 1 := by omega
            rw [if_pos hin, nextLayer_getD_pair l (idx / 2) (by omega), h2b, h1]
            rfl
          · have hlast : l.length = 2 * (idx / 2) + 1 := by omega
            have h1 : 2 * (idx / 2) = idx := by omega
            rw [if_neg hin, nextLayer_getD_promoted l (idx / 2) hlast, h1]
            rfl
      have hih := foldl_genProofAux_eq_root n (nextLayer l)
        (by omega) (by rw [← List.length_pos]; omega) (idx / 2) (by omega)
      rw [ht] at hih
      simp only [genProofAux, List.foldl_append, hsib]
      rw [hih]
      rw [List.getLastD_cons, List.getLastD_cons]
      cases t with
      | nil => rfl
      | cons x xs => simp only [List.getLastD_cons]

/-! ### Claim C4 -/

theorem leavesHash_eq_map (entries : List (List Nat × Nat)) :
    (entries.enum.map fun p =>
        MerkleLeaf.mk p.2.1 p.2.2 (hashLeaf p.2.1 p.2.2) p.1).map MerkleLeaf.hash =
      entries.map fun e => hashLeaf e.1 e.2 := by
  rw [List.map_map]
  have hcomp : (MerkleLeaf.hash ∘ fun p : Nat × (List Nat × Nat) =>
      MerkleLeaf.mk p.2.1 p.2.2 (hashLeaf p.2.1 p.2.2) p.1) =
      ((fun e : List Nat × Nat => hashLeaf e.1 e.2) ∘ Prod.snd) := rfl
  rw [hcomp, ← List.map_map, List.enum_map_snd]

/-- C4: the inclusion round-trip.  For every nonempty record list and every
leaf index of the tree built from it, the authentication path produced by
`generateProof` verifies against the tree root: `verifyProof` applied to
the leaf hash, the generated path, the root and the index returns true. -/
theorem inclusion_roundtrip (entries : List (List Nat × Nat)) (i : Nat)
    (hne : entries ≠ []) (hi : i < entries.length) :
    ∃ t, buildMerkleTree entries = some t ∧
      verifyProof ((t.leaves.getD i (MerkleLeaf.mk [] 0 0 0)).hash)
        (generateProof t i) t.root i = true := by
  simp only [buildMerkleTree, if_neg hne]
  refine ⟨_, rfl, ?_⟩
  simp only [verifyProof, generateProof]
  rw [verifyFold_fst]
  have hgetD : ((entries.enum.map fun p =>
      MerkleLeaf.mk p.2.1 p.2.2 (hashLeaf p.2.1 p.2.2) p.1).getD i
        (MerkleLeaf.mk [] 0 0 0)).hash =
      (entries.map fun e => hashLeaf e.1 e.2).getD i 0 := by
    rw [← leavesHash_eq_map entries]
    exact (List.getD_map _ (MerkleLeaf.mk [] 0 0 0) MerkleLeaf.hash).symm
  rw [hgetD, leavesHash_eq_map entries]
  have hlen0 : (entries.map fun e => hashLeaf e.1 e.2).length = entries.length :=
    List.length_map _ _
  generalize hL : List.map (fun e => hashLeaf e.1 e.2) entries = L
  rw [hL] at hlen0
  have hne2 : L ≠ [] := by
    rw [← List.length_pos, hlen0]
    omega
  have hi2 : i < L.length := by omega
  have hroot := foldl_genProofAux_eq_root L.length L (Nat.le_refl _) hne2 i hi2
  rw [hroot]
  exact beq_self_eq_true _

/-- Witness for C4 at a one-record list and leaf index 0. -/
theorem inclusion_roundtrip_witness :
    ∃ t, buildMerkleTree [([97], 5)] = some t ∧
      verifyProof ((t.leaves.getD 0 (MerkleLeaf.mk [] 0 0 0)).hash)
        (generateProof t 0) t.root 0 = true :=
  inclusion_roundtrip [([97], 5)] 0 (by decide) (by decide)

/-! ### Claim C3, amended statement (its counterexample is at the end of
the file, with the other concrete Keccak evaluations) -/

/-- One pairing pass maps a layer to the same next layer after the two
elements of a sibling pair are swapped: the prefix before the pair has
even length, so the pairing boundaries are unchanged, and the swapped
pair itself is hashed commutatively. -/
theorem nextLayer_swap : ∀ (H : List Nat), H.length % 2 = 0 →
    ∀ (x y : Nat) (T : List Nat),
    nextLayer (H ++ x :: y :: T) = nextLayer (H ++ y :: x :: T)
  | [], _, x, y, T => by
    simp only [List.nil_append, nextLayer]
    rw [hashPair_comm]
  | [h], hpar, x, y, T => by simp at hpar
  | h1 :: h2 :: H, hpar, x, y, T => by
    have hpar2 : H.length % 2 = 0 := by
      simp only [List.length_cons] at hpar
      omega
    simp only [List.cons_append, nextLayer]
    exact congrArg (List.cons (hashPair h1 h2)) (nextLayer_swap H hpar2 x y T)

/-- Two leaf layers of length at least two with equal next layers yield
the same root. -/
theorem buildLayers_root_of_nextLayer_eq (L1 L2 : List Nat) (h1 : 2 ≤ L1.length)
    (h2 : 2 ≤ L2.length) (hnext : nextLayer L1 = nextLayer L2) :
    ((buildLayers L1).getLastD []).headD 0 = ((buildLayers L2).getLastD []).headD 0 := by
  rw [buildLayers_step L1 h1, buildLayers_step L2 h2, hnext]
  obtain ⟨t, ht⟩ := buildLayers_shape (nextLayer L2)
  rw [ht]
  simp only [List.getLastD_cons]

/-- The root of a built tree, expressed through the leaf hash list. -/
theorem buildMerkleTree_root_map (entries : List (List Nat × Nat))
    (hne : entries ≠ []) :
    (buildMerkleTree entries).map MerkleTree.root =
      some (((buildLayers (entries.map fun e => hashLeaf e.1 e.2)).getLastD
        []).headD 0) := by
  simp only [buildMerkleTree, if_neg hne]
  rw [leavesHash_eq_map]
  rfl

/-- C3 as amended: the root is invariant under swapping the two records of
a sibling pair — the records at leaf positions `2k` and `2k + 1`, written
here as the two records following an even-length prefix.  In particular
the two orderings of any two-record multiset give the same root.  General
reorderings of three or more records may change the root. -/
theorem buildMerkleTree_swap_pair_root (pre post : List (List Nat × Nat))
    (a b : List Nat × Nat) (hpar : pre.length % 2 = 0) :
    (buildMerkleTree (pre ++ a :: b :: post)).map MerkleTree.root =
      (buildMerkleTree (pre ++ b :: a :: post)).map MerkleTree.root := by
  have hne1 : pre ++ a :: b :: post ≠ [] := by simp
  have hne2 : pre ++ b :: a :: post ≠ [] := by simp
  rw [buildMerkleTree_root_map _ hne1, buildMerkleTree_root_map _ hne2]
  refine congrArg some ?_
  rw [List.map_append, List.map_append, List.map_cons, List.map_cons,
    List.map_cons, List.map_cons]
  generalize hP : List.map (fun e => hashLeaf e.1 e.2) pre = P
  generalize List.map (fun e => hashLeaf e.1 e.2) post = T
  generalize hashLeaf a.1 a.2 = A
  generalize hashLeaf b.1 b.2 = B
  have hPpar : P.length % 2 = 0 := by
    rw [← hP, List.length_map]
    exact hpar
  refine buildLayers_root_of_nextLayer_eq _ _ ?_ ?_ ?_
  · simp only [List.length_append, List.length_cons]
    omega
  · simp only [List.length_append, List.length_cons]
    omega
  · exact nextLayer_swap P hPpar A B T

/-- Witness for the amended C3: swapping the sibling pair at leaf
positions 2 and 3 of a four-record list. -/
theorem buildMerkleTree_swap_pair_root_witness :
    (buildMerkleTree ([([97], 1), ([98], 2)] ++ ([99], 3) :: ([100], 4) :: [])).map
        MerkleTree.root =
      (buildMerkleTree ([([97], 1), ([98], 2)] ++ ([100], 4) :: ([99], 3) :: [])).map
        MerkleTree.root :=
  buildMerkleTree_swap_pair_root [([97], 1), ([98], 2)] [] ([99], 3) ([100], 4)
    (by decide)

/-! ### Claim C2 -/

/-- A satisfying assignment for one value of the root and epoch inputs
yields one for any other value: only the two dummy signals mention them,
and those signals are freely assignable. -/
theorem solvencySatisfiable_indep_aux (r1 e1 r2 e2 R L : Fp)
    (h : solvencySatisfiable r1 R e1 L) : solvencySatisfiable r2 R e2 L := by
  obtain ⟨isS, d1, d2, g, bits, hgte, hiso, hone, _, _⟩ := h
  exact ⟨isS, r2 * e2, r2 * e2 * 0, g, bits, hgte, hiso, hone, rfl, rfl⟩

/-- C2 counterexample: satisfiability of the Solvency constraint system is
independent of the values of `liabilitiesRoot` and `epochId` — there is no
pair of assignments agreeing on the other inputs that one can satisfy and
the other not.  The dummy constraints `dummy1 = root * epoch` and
`dummy2 = dummy1 * 0` mention the two signals but never restrict them, so
whether a witness exists never depends on their values. -/
theorem solvency_root_epoch_do_not_affect_satisfiability :
    ¬ ∃ (r1 e1 r2 e2 R L : Fp),
      solvencySatisfiable r1 R e1 L ∧ ¬ solvencySatisfiable r2 R e2 L := by
  rintro ⟨r1, e1, r2, e2, R, L, hsat, hnot⟩
  exact hnot (solvencySatisfiable_indep_aux r1 e1 r2 e2 R L hsat)

/-- C2 as amended: `liabilitiesRoot` and `epochId` occur in the arithmetic
constraints `dummy1 = liabilitiesRoot * epochId` and `dummy2 = dummy1 * 0`
of the system, but those constraints never restrict them: satisfiability
of the constraint system is fully independent of the two values, so at the
constraint-system level nothing ties a witness to a particular liabilities
commitment or epoch. -/
theorem solvency_sat_independent_of_root_epoch (r1 e1 r2 e2 R L : Fp) :
    solvencySatisfiable r1 R e1 L ↔ solvencySatisfiable r2 R e2 L :=
  ⟨solvencySatisfiable_indep_aux r1 e1 r2 e2 R L,
   solvencySatisfiable_indep_aux r2 e2 r1 e1 R L⟩

/-! ### Primality of the BN254 scalar prime, by Lucas certificates -/

theorem powMod_lt : ∀ (f b e m : Nat), 0 < m → powMod f b e m < m
  | 0, b, e, m, hm => Nat.mod_lt _ hm
  | f + 1, b, e, m, hm => by
    simp only [powMod]
    split
    · exact Nat.mod_lt _ hm
    · split
      · exact Nat.mod_lt _ hm
      · exact Nat.mod_lt _ hm

theorem powMod_eq : ∀ (f b e m : Nat), 0 < m → e < 2 ^ f → powMod f b e m = b ^ e % m
  | 0, b, e, m, hm, he => by
    have he0 : e = 0 := by
      simp only [pow_zero] at he
      omega
    subst he0
    simp [powMod]
  | f + 1, b, e, m, hm, he => by
    by_cases he0 : e = 0
    · subst he0
      simp [powMod]
    · have hpow : (2 : Nat) ^ (f + 1) = 2 ^ f * 2 := pow_succ 2 f
      have hrec := powMod_eq f b (e / 2) m hm (by omega)
      simp only [powMod, if_neg he0, hrec]
      by_cases hpar : e % 2 = 0
      · rw [if_pos hpar]
        have hsplit : e = e / 2 + e / 2 := by omega
        conv_rhs => rw [hsplit, pow_add, Nat.mul_mod]
      · rw [if_neg hpar]
        have hsplit : e = e / 2 + e / 2 + 1 := by omega
        conv_rhs => rw [hsplit, pow_add, pow_add, pow_one,
          Nat.mul_mod (b ^ (e / 2) * b ^ (e / 2)) b m,
          Nat.mul_mod (b ^ (e / 2)) (b ^ (e / 2)) m]

theorem zmod_pow_powMod (p g e f : Nat) [NeZero p] (hf : e < 2 ^ f) :
    (g : ZMod p) ^ e = ((powMod f g e p : Nat) : ZMod p) := by
  rw [powMod_eq f g e p (Nat.pos_of_ne_zero (NeZero.ne p)) hf, ZMod.natCast_mod,
    Nat.cast_pow]

theorem pratt_pow_eq_one (p g f : Nat) [NeZero p] (hf : p - 1 < 2 ^ f)
    (hcomp : powMod f g (p - 1) p = 1 % p) : (g : ZMod p) ^ (p - 1) = 1 := by
  rw [zmod_pow_powMod p g (p - 1) f hf, hcomp, ZMod.natCast_mod, Nat.cast_one]

theorem pratt_pow_ne_one (p g f e : Nat) [NeZero p] (hp : 1 < p) (hf : e < 2 ^ f)
    (hne : powMod f g e p ≠ 1) : (g : ZMod p) ^ e ≠ 1 := by
  intro h
  rw [zmod_pow_powMod p g e f hf] at h
  have h2 : ((powMod f g e p : Nat) : ZMod p) = ((1 : Nat) : ZMod p) := by
    rw [h, Nat.cast_one]
  have h3 := congrArg ZMod.val h2
  rw [ZMod.val_cast_of_lt (powMod_lt f g e p (by omega)),
    ZMod.val_cast_of_lt hp] at h3
  exact hne h3

/-- A Lucas primality certificate with an explicit list of the prime
divisors of `p - 1`, checked by kernel computation of `powMod`. -/
theorem prime_of_pratt_cert (p g f : Nat) (qs : List Nat)
    (hp : 2 ≤ p)
    (hfp : p - 1 < 2 ^ f)
    (hcov : ∀ q, Nat.Prime q → q ∣ p - 1 → q ∈ qs)
    (hone : powMod f g (p - 1) p = 1 % p)
    (hne : ∀ q ∈ qs, powMod f g ((p - 1) / q) p ≠ 1) :
    Nat.Prime p := by
  haveI : NeZero p := ⟨by omega⟩
  refine lucas_primality p (g : ZMod p) (pratt_pow_eq_one p g f hfp hone) ?_
  intro q hq hdvd
  have hmem := hcov q hq hdvd
  exact pratt_pow_ne_one p g f ((p - 1) / q) (by omega)
    (lt_of_le_of_lt (Nat.div_le_self _ _) hfp) (hne q hmem)

theorem cov_mul {q a b : Nat} (hq : Nat.Prime q) (s : List Nat)
    (ha : q ∣ a → q ∈ s) (hb : q ∣ b → q ∈ s) (h : q ∣ a * b) : q ∈ s :=
  ((Nat.Prime.dvd_mul hq).mp h).elim ha hb

theorem cov_pow {q r k : Nat} (hq : Nat.Prime q) (hr : Nat.Prime r) (s : List Nat)
    (hmem : r ∈ s) (h : q ∣ r ^ k) : q ∈ s := by
  have h1 : q ∣ r := hq.dvd_of_dvd_pow h
  have h2 : q = r := (Nat.prime_dvd_prime_iff_eq hq hr).mp h1
  exact h2 ▸ hmem

theorem cov_prime {q r : Nat} (hq : Nat.Prime q) (hr : Nat.Prime r) (s : List Nat)
    (hmem : r ∈ s) (h : q ∣ r) : q ∈ s :=
  ((Nat.prime_dvd_prime_iff_eq hq hr).mp h) ▸ hmem

theorem prime_93001 : Nat.Prime 93001 := by
  refine prime_of_pratt_cert 93001 14 17 [2, 3, 5, 31]
    (by norm_num) (by norm_num) ?_ (by decide) (by decide)
  intro q hq hdvd
  have hfac : (93001 : Nat) - 1 = 2 ^ 3 * (3 * (5 ^ 3 * 31)) := by norm_num
  rw [hfac] at hdvd
  refine cov_mul hq _ (cov_pow hq (by norm_num) _ (by decide)) (fun h1 => ?_) hdvd
  refine cov_mul hq _ (cov_prime hq (by norm_num) _ (by decide)) (fun h2 => ?_) h1
  exact cov_mul hq _ (cov_pow hq (by norm_num) _ (by decide))
    (cov_prime hq (by norm_num) _ (by decide)) h2

theorem prime_237073 : Nat.Prime 237073 := by
  refine prime_of_pratt_cert 237073 15 18 [2, 3, 11, 449]
    (by norm_num) (by norm_num) ?_ (by decide) (by decide)
  intro q hq hdvd
  have hfac : (237073 : Nat) - 1 = 2 ^ 4 * (3 * (11 * 449)) := by norm_num
  rw [hfac] at hdvd
  refine cov_mul hq _ (cov_pow hq (by norm_num) _ (by decide)) (fun h1 => ?_) hdvd
  refine cov_mul hq _ (cov_prime hq (by norm_num) _ (by decide)) (fun h2 => ?_) h1
  exact cov_mul hq _ (cov_prime hq (by norm_num) _ (by decide))
    (cov_prime hq (by norm_num) _ (by decide)) h2

theorem prime_1593227 : Nat.Prime 1593227 := by
  refine prime_of_pratt_cert 1593227 2 21 [2, 19, 41927]
    (by norm_num) (by norm_num) ?_ (by decide) (by decide)
  intro q hq hdvd
  have hfac : (1593227 : Nat) - 1 = 2 * (19 * 41927) := by norm_num
  rw [hfac] at hdvd
  refine cov_mul hq _ (cov_prime hq (by norm_num) _ (by decide)) (fun h1 => ?_) hdvd
  exact cov_mul hq _ (cov_prime hq (by norm_num) _ (by decide))
    (cov_prime hq (by norm_num) _ (by decide)) h1

theorem prime_405928799 : Nat.Prime 405928799 := by
  refine prime_of_pratt_cert 405928799 22 29 [2, 11, 3691, 4999]
    (by norm_num) (by norm_num) ?_ (by decide) (by decide)
  intro q hq hdvd
  have hfac : (405928799 : Nat) - 1 = 2 * (11 * (3691 * 4999)) := by norm_num
  rw [hfac] at hdvd
  refine cov_mul hq _ (cov_prime hq (by norm_num) _ (by decide)) (fun h1 => ?_) hdvd
  refine cov_mul hq _ (cov_prime hq (by norm_num) _ (by decide)) (fun h2 => ?_) h1
  exact cov_mul hq _ (cov_prime hq (by norm_num) _ (by decide))
    (cov_prime hq (by norm_num) _ (by decide)) h2

theorem prime_639533339 : Nat.Prime 639533339 := by
  refine prime_of_pratt_cert 639533339 2 30 [2, 229, 853, 1637]
    (by norm_num) (by norm_num) ?_ (by decide) (by decide)
  intro q hq hdvd
  have hfac : (639533339 : Nat) - 1 = 2 * (229 * (853 * 1637)) := by norm_num
  rw [hfac] at hdvd
  refine cov_mul hq _ (cov_prime hq (by norm_num) _ (by decide)) (fun h1 => ?_) hdvd
  refine cov_mul hq _ (cov_prime hq (by norm_num) _ (by decide)) (fun h2 => ?_) h1
  exact cov_mul hq _ (cov_prime hq (by norm_num) _ (by decide))
    (cov_prime hq (by norm_num) _ (by decide)) h2

theorem prime_12048837557 : Nat.Prime 12048837557 := by
  refine prime_of_pratt_cert 12048837557 2 34 [2, 7, 661, 93001]
    (by norm_num) (by norm_num) ?_ (by decide) (by decide)
  intro q hq hdvd
  have hfac : (12048837557 : Nat) - 1 = 2 ^ 2 * (7 ^ 2 * (661 * 93001)) := by norm_num
  rw [hfac] at hdvd
  refine cov_mul hq _ (cov_pow hq (by norm_num) _ (by decide)) (fun h1 => ?_) hdvd
  refine cov_mul hq _ (cov_pow hq (by norm_num) _ (by decide)) (fun h2 => ?_) h1
  exact cov_mul hq _ (cov_prime hq (by norm_num) _ (by decide))
    (cov_prime hq prime_93001 _ (by decide)) h2

theorem prime_5156902474397 : Nat.Prime 5156902474397 := by
  refine prime_of_pratt_cert 5156902474397 2 43 [2, 107, 12048837557]
    (by norm_num) (by norm_num) ?_ (by decide) (by decide)
  intro q hq hdvd
  have hfac : (5156902474397 : Nat) - 1 = 2 ^ 2 * (107 * 12048837557) := by norm_num
  rw [hfac] at hdvd
  refine cov_mul hq _ (cov_pow hq (by norm_num) _ (by decide)) (fun h1 => ?_) hdvd
  exact cov_mul hq _ (cov_prime hq (by norm_num) _ (by decide))
    (cov_prime hq prime_12048837557 _ (by decide)) h1

theorem prime_1670836401704629 : Nat.Prime 1670836401704629 := by
  refine prime_of_pratt_cert 1670836401704629 2 51 [2, 3, 5156902474397]
    (by norm_num) (by norm_num) ?_ (by decide) (by decide)
  intro q hq hdvd
  have hfac : (1670836401704629 : Nat) - 1 = 2 ^ 2 * (3 ^ 4 * 5156902474397) := by
    norm_num
  rw [hfac] at hdvd
  refine cov_mul hq _ (cov_pow hq (by norm_num) _ (by decide)) (fun h1 => ?_) hdvd
  exact cov_mul hq _ (cov_pow hq (by norm_num) _ (by decide))
    (cov_prime hq prime_5156902474397 _ (by decide)) h1

theorem prime_65865678001877903 : Nat.Prime 65865678001877903 := by
  refine prime_of_pratt_cert 65865678001877903 5 56 [2, 83, 379, 1637, 639533339]
    (by norm_num) (by norm_num) ?_ (by decide) (by decide)
  intro q hq hdvd
  have hfac : (65865678001877903 : Nat) - 1 = 2 * (83 * (379 * (1637 * 639533339))) := by
    norm_num
  rw [hfac] at hdvd
  refine cov_mul hq _ (cov_prime hq (by norm_num) _ (by decide)) (fun h1 => ?_) hdvd
  refine cov_mul hq _ (cov_prime hq (by norm_num) _ (by decide)) (fun h2 => ?_) h1
  refine cov_mul hq _ (cov_prime hq (by norm_num) _ (by decide)) (fun h3 => ?_) h2
  exact cov_mul hq _ (cov_prime hq (by norm_num) _ (by decide))
    (cov_prime hq prime_639533339 _ (by decide)) h3

theorem prime_13818364434197438864469338081 :
    Nat.Prime 13818364434197438864469338081 := by
  refine prime_of_pratt_cert 13818364434197438864469338081 3 94
    [2, 5, 823, 1593227, 65865678001877903]
    (by norm_num) (by norm_num) ?_ (by decide) (by decide)
  intro q hq hdvd
  have hfac : (13818364434197438864469338081 : Nat) - 1 =
      2 ^ 5 * (5 * (823 * (1593227 * 65865678001877903))) := by norm_num
  rw [hfac] at hdvd
  refine cov_mul hq _ (cov_pow hq (by norm_num) _ (by decide)) (fun h1 => ?_) hdvd
  refine cov_mul hq _ (cov_prime hq (by norm_num) _ (by decide)) (fun h2 => ?_) h1
  refine cov_mul hq _ (cov_prime hq (by norm_num) _ (by decide)) (fun h3 => ?_) h2
  exact cov_mul hq _ (cov_prime hq prime_1593227 _ (by decide))
    (cov_prime hq prime_65865678001877903 _ (by decide)) h3

/-- The BN254 scalar field modulus is prime. -/
theorem bn254p_prime : Nat.Prime bn254p := by
  refine prime_of_pratt_cert bn254p 5 254
    [2, 3, 13, 29, 983, 11003, 237073, 405928799, 1670836401704629,
     13818364434197438864469338081]
    (by norm_num [bn254p]) (by decide) ?_ (by decide) (by decide)
  intro q hq hdvd
  have hfac : bn254p - 1 = 2 ^ 28 * (3 ^ 2 * (13 * (29 * (983 * (11003 * (237073 *
      (405928799 * (1670836401704629 * 13818364434197438864469338081)))))))) := by
    decide
  rw [hfac] at hdvd
  refine cov_mul hq _ (cov_pow hq (by norm_num) _ (by decide)) (fun h1 => ?_) hdvd
  refine cov_mul hq _ (cov_pow hq (by norm_num) _ (by decide)) (fun h2 => ?_) h1
  refine cov_mul hq _ (cov_prime hq (by norm_num) _ (by decide)) (fun h3 => ?_) h2
  refine cov_mul hq _ (cov_prime hq (by norm_num) _ (by decide)) (fun h4 => ?_) h3
  refine cov_mul hq _ (cov_prime hq (by norm_num) _ (by decide)) (fun h5 => ?_) h4
  refine cov_mul hq _ (cov_prime hq (by norm_num) _ (by decide)) (fun h6 => ?_) h5
  refine cov_mul hq _ (cov_prime hq prime_237073 _ (by decide)) (fun h7 => ?_) h6
  refine cov_mul hq _ (cov_prime hq prime_405928799 _ (by decide)) (fun h8 => ?_) h7
  exact cov_mul hq _ (cov_prime hq prime_1670836401704629 _ (by decide))
    (cov_prime hq prime_13818364434197438864469338081 _ (by decide)) h8

instance : Fact (Nat.Prime bn254p) := ⟨bn254p_prime⟩

/-! ### Claim C1: soundness and completeness of the Solvency circuit -/

theorem sum_range_two_pow (n : Nat) :
    (Finset.range n).sum (fun i => 2 ^ i) = 2 ^ n - 1 := by
  induction n with
  | zero => rfl
  | succ n ih =>
    rw [Finset.sum_range_succ, ih]
    have h1 := Nat.two_pow_pos n
    have h2 : (2 : ℕ) ^ (n + 1) = 2 ^ n * 2 := pow_succ 2 n
    omega

theorem sum_bits_eq : ∀ (n V : Nat), V < 2 ^ n →
    (Finset.range n).sum (fun i => V / 2 ^ i % 2 * 2 ^ i) = V
  | 0, V, h => by
    simp only [pow_zero] at h
    interval_cases V
    simp
  | n + 1, V, h => by
    have h2 : (2 : ℕ) ^ (n + 1) = 2 ^ n * 2 := pow_succ 2 n
    have hhalf : V / 2 < 2 ^ n := by omega
    have ih := sum_bits_eq n (V / 2) hhalf
    rw [Finset.sum_range_succ']
    have hterm : ∀ i, V / 2 ^ (i + 1) % 2 * 2 ^ (i + 1) =
        2 * (V / 2 / 2 ^ i % 2 * 2 ^ i) := by
      intro i
      rw [Nat.div_div_eq_div_mul, pow_succ']
      ring
    simp only [hterm]
    rw [← Finset.mul_sum, ih]
    simp only [pow_zero, Nat.div_one, mul_one]
    omega

theorem fp_bool_of_constraint (x : Fp) (h : x * (x - 1) = 0) : x = 0 ∨ x = 1 := by
  rcases mul_eq_zero.mp h with h0 | h1
  · exact Or.inl h0
  · exact Or.inr (sub_eq_zero.mp h1)

theorem fp_natCast_inj {a b : Nat} (ha : a < bn254p) (hb : b < bn254p)
    (h : (a : Fp) = b) : a = b := by
  have h2 := congrArg ZMod.val h
  rwa [ZMod.val_cast_of_lt ha, ZMod.val_cast_of_lt hb] at h2

theorem fp_cast_V (reserves liab : Nat) (hres : reserves < 2 ^ 252) :
    ((liab + 2 ^ 252 - (reserves + 1) : Nat) : Fp) =
      (liab : Fp) + 2 ^ 252 - ((reserves : Fp) + 1) := by
  have h1 : reserves + 1 ≤ liab + 2 ^ 252 := by omega
  rw [Nat.cast_sub h1]
  push_cast
  ring

/-- Soundness: a satisfying assignment forces the integer inequality. -/
theorem solvency_sat_le (root reserves epoch liab : Nat)
    (hres : reserves < 2 ^ 252) (hliab : liab < 2 ^ 252)
    (hsat : solvencySatisfiable (root : Fp) (reserves : Fp) (epoch : Fp) (liab : Fp)) :
    liab ≤ reserves := by
  obtain ⟨isS, d1, d2, g, bits, hcon⟩ := hsat
  simp only [solvencyConstraints, greaterEqThanC, lessThanC, num2bits] at hcon
  obtain ⟨⟨⟨hb, hsum⟩, hgout⟩, hisg, his1, -, -⟩ := hcon
  have hg1 : g = 1 := by rw [← hisg]; exact his1
  have hb252 : bits 252 = 0 := by
    have h2 : (1 : Fp) - bits 252 = 1 := by rw [← hgout]; exact hg1
    linear_combination -h2
  have hnb_le : ∀ i, (if bits i = 1 then 1 else 0 : Nat) ≤ 1 := fun i => by
    split <;> omega
  have hcastsum : (((Finset.range 253).sum fun i =>
      (if bits i = 1 then 1 else 0 : Nat) * 2 ^ i : Nat) : Fp) =
      (Finset.range 253).sum fun i => bits i * 2 ^ i := by
    push_cast
    refine Finset.sum_congr rfl fun i hi => ?_
    rcases fp_bool_of_constraint (bits i) (hb i (Finset.mem_range.mp hi)) with h0 | h1
    · have hne1 : bits i ≠ 1 := by rw [h0]; exact zero_ne_one
      rw [if_neg hne1, h0]
    · rw [if_pos h1, h1]
  have hS_le : ∀ m : Nat, (Finset.range m).sum
      (fun i => (if bits i = 1 then 1 else 0 : Nat) * 2 ^ i) ≤ 2 ^ m - 1 := by
    intro m
    calc (Finset.range m).sum (fun i => (if bits i = 1 then 1 else 0 : Nat) * 2 ^ i)
        ≤ (Finset.range m).sum fun i => 2 ^ i := by
          refine Finset.sum_le_sum fun i _ => ?_
          calc (if bits i = 1 then 1 else 0 : Nat) * 2 ^ i
              ≤ 1 * 2 ^ i := Nat.mul_le_mul_right _ (hnb_le i)
            _ = 2 ^ i := one_mul _
      _ = 2 ^ m - 1 := sum_range_two_pow m
  have h253p : (2 : ℕ) ^ 253 < bn254p := by decide
  have h253 : (2 : ℕ) ^ 253 = 2 ^ 252 * 2 := pow_succ 2 252
  have hfield : (((Finset.range 253).sum fun i =>
      (if bits i = 1 then 1 else 0 : Nat) * 2 ^ i : Nat) : Fp) =
      ((liab + 2 ^ 252 - (reserves + 1) : Nat) : Fp) := by
    rw [hcastsum, fp_cast_V reserves liab hres]
    exact hsum
  have hSV : (Finset.range 253).sum
      (fun i => (if bits i = 1 then 1 else 0 : Nat) * 2 ^ i) =
      liab + 2 ^ 252 - (reserves + 1) := by
    refine fp_natCast_inj ?_ ?_ hfield
    · have := hS_le 253
      omega
    · omega
  have hnb252 : (if bits 252 = 1 then 1 else 0 : Nat) = 0 := by
    rw [hb252, if_neg zero_ne_one]
  have hsplit : (Finset.range 253).sum
      (fun i => (if bits i = 1 then 1 else 0 : Nat) * 2 ^ i) =
      (Finset.range 252).sum
        (fun i => (if bits i = 1 then 1 else 0 : Nat) * 2 ^ i) +
        (if bits 252 = 1 then 1 else 0 : Nat) * 2 ^ 252 := by
    rw [show (253 : ℕ) = 252 + 1 from rfl, Finset.sum_range_succ]
  have h252 := hS_le 252
  have hpos := Nat.two_pow_pos 252
  rw [hsplit, hnb252] at hSV
  omega

/-- Completeness: the integer inequality yields a satisfying assignment. -/
theorem solvency_le_sat (root reserves epoch liab : Nat)
    (hres : reserves < 2 ^ 252) (hliab : liab < 2 ^ 252)
    (hle : liab ≤ reserves) :
    solvencySatisfiable (root : Fp) (reserves : Fp) (epoch : Fp) (liab : Fp) := by
  have hpos := Nat.two_pow_pos 252
  have h253 : (2 : ℕ) ^ 253 = 2 ^ 252 * 2 := pow_succ 2 252
  have hVN252 : liab + 2 ^ 252 - (reserves + 1) < 2 ^ 252 := by omega
  have hVN253 : liab + 2 ^ 252 - (reserves + 1) < 2 ^ 253 := by omega
  refine ⟨1, (root : Fp) * epoch, (root : Fp) * epoch * 0, 1,
    fun i => (((liab + 2 ^ 252 - (reserves + 1)) / 2 ^ i % 2 : Nat) : Fp),
    ⟨⟨?_, ?_⟩, ?_⟩, rfl, rfl, rfl, rfl⟩
  · intro i _
    dsimp only
    rcases Nat.mod_two_eq_zero_or_one ((liab + 2 ^ 252 - (reserves + 1)) / 2 ^ i)
      with h | h <;> rw [h] <;> simp
  · dsimp only
    have hcast1 : (Finset.range (252 + 1)).sum
        (fun i => (((liab + 2 ^ 252 - (reserves + 1)) / 2 ^ i % 2 : Nat) : Fp) * 2 ^ i) =
        (((Finset.range 253).sum
          fun i => (liab + 2 ^ 252 - (reserves + 1)) / 2 ^ i % 2 * 2 ^ i : Nat) : Fp) := by
      push_cast
      rfl
    rw [hcast1, sum_bits_eq 253 _ hVN253]
    exact fp_cast_V reserves liab hres
  · dsimp only
    have hdiv : (liab + 2 ^ 252 - (reserves + 1)) / 2 ^ 252 = 0 :=
      Nat.div_eq_of_lt hVN252
    rw [hdiv]
    simp

/-- C1: over the BN254 scalar field, with every input inside the 252-bit
comparator range, the Solvency constraint system is satisfiable exactly
when `liabilitiesTotal ≤ reservesTotal` as integers, and every satisfying
assignment has the sole output `isSolvent` equal to 1 — so a proof exists
precisely for solvent input assignments, and no proof exists when
reserves fall short of liabilities. -/
theorem solvency_circuit_correct (root reserves epoch liab : Nat)
    (hroot : root < 2 ^ 252) (hres : reserves < 2 ^ 252)
    (hepoch : epoch < 2 ^ 252) (hliab : liab < 2 ^ 252) :
    (solvencySatisfiable (root : Fp) (reserves : Fp) (epoch : Fp) (liab : Fp) ↔
      liab ≤ reserves) ∧
    (∀ isS d1 d2 g bits,
      solvencyConstraints (root : Fp) (reserves : Fp) (epoch : Fp) (liab : Fp)
        isS d1 d2 g bits → isS = 1) := by
  refine ⟨⟨solvency_sat_le root reserves epoch liab hres hliab,
    solvency_le_sat root reserves epoch liab hres hliab⟩, ?_⟩
  intro isS d1 d2 g bits h
  exact h.2.2.1

/-- Witness for C1 at root 1, reserves 3, epoch 1, liabilities 2. -/
theorem solvency_circuit_correct_witness :
    (solvencySatisfiable ((1 : Nat) : Fp) ((3 : Nat) : Fp) ((1 : Nat) : Fp)
        ((2 : Nat) : Fp) ↔ 2 ≤ 3) ∧
    (∀ isS d1 d2 g bits,
      solvencyConstraints ((1 : Nat) : Fp) ((3 : Nat) : Fp) ((1 : Nat) : Fp)
        ((2 : Nat) : Fp) isS d1 d2 g bits → isS = 1) :=
  solvency_circuit_correct 1 3 1 2 (by norm_num) (by norm_num) (by norm_num)
    (by norm_num)

/-! ### Concrete Keccak-256 evaluations (claim C3 and a test vector) -/

set_option maxHeartbeats 8000000

/-! Sanity check of the Keccak-256 model against the standard test vector
for the empty message. -/

example : keccak256 [] =
    0xc5d2460186f7233c927e7db2dcc703c0e500b653ca82273b7bfad8045d85a470 := by decide

/-- C3 counterexample: the two input orders `a, b, c` and `a, c, b` of the
same three-record multiset give different roots, because reordering
changes which leaves are paired as siblings; sorting inside `hashPair`
only makes each single pair commutative.  Computed with the real
Keccak-256 digests. -/
theorem buildMerkleTree_root_order_dependent :
    (([([97], 1), ([98], 2), ([99], 3)] : List (List Nat × Nat)).Perm
      [([97], 1), ([99], 3), ([98], 2)]) ∧
    (buildMerkleTree [([97], 1), ([98], 2), ([99], 3)]).map MerkleTree.root ≠
      (buildMerkleTree [([97], 1), ([99], 3), ([98], 2)]).map MerkleTree.root := by
  decide
